import Mathlib

/-
Verification development for the click resource-projection engine.
Shallow embedding of src/command/mod.rs (list projection) and
src/describe/legacy.rs (describe projection and redaction policy).
Rust panics are modelled as Option.none results; machine strings are
Lean Strings; external libraries (serde_json pointers, base64, UTF-8
validation, chrono parsing) are embedded as executable Lean functions
matching their documented behaviour.
-/

/-- Lexicographic order on character lists by unicode scalar value,
matching the Ord instance Rust derives for strings. -/
def charListLe : List Char → List Char → Bool
  | [], _ => true
  | _ :: _, [] => false
  | a :: as, b :: bs =>
    a.toNat < b.toNat || (a.toNat == b.toNat && charListLe as bs)

/-- String order used for cell comparison (byte order on UTF-8 agrees with
scalar-value order). -/
def strLe (a b : String) : Bool := charListLe a.toList b.toList

/-- Order on optional strings: an absent value sorts first, as with Option
ordering in Rust. -/
def optStrLe : Option String → Option String → Bool
  | none, _ => true
  | some _, none => false
  | some a, some b => strLe a b

/-- Semi-structured resource tree, the shape of serde_json::Value. -/
inductive Json where
  | null
  | bool (b : Bool)
  | num (n : Int)
  | str (s : String)
  | arr (elems : List Json)
  | obj (fields : List (String × Json))

/-- Object field access, Value::get for a string key. -/
def Json.get? (j : Json) (k : String) : Option Json :=
  match j with
  | Json.obj fs => fs.lookup k
  | _ => none

/-- Value::as_str. -/
def Json.as_str : Json → Option String
  | Json.str s => some s
  | _ => none

/-- Value::as_object, yielding the field list in map iteration order. -/
def Json.as_object : Json → Option (List (String × Json))
  | Json.obj fs => some fs
  | _ => none

/-- Value::as_u64. -/
def Json.as_u64 : Json → Option Nat
  | Json.num n => if 0 ≤ n then some n.toNat else none
  | _ => none

/-- Split a character list on the slash separators of a JSON pointer. -/
def splitOnSlash : List Char → List (List Char)
  | [] => [[]]
  | '/' :: rest => [] :: splitOnSlash rest
  | c :: rest =>
    match splitOnSlash rest with
    | [] => [[c]]
    | t :: ts => (c :: t) :: ts

/-- RFC 6901 token unescaping: a tilde-zero pair stands for a tilde and a
tilde-one pair stands for a slash. -/
def unescapeChars : List Char → List Char
  | [] => []
  | '~' :: '0' :: rest => '~' :: unescapeChars rest
  | '~' :: '1' :: rest => '/' :: unescapeChars rest
  | c :: rest => c :: unescapeChars rest

/-- Decimal digits to a number, for pointer array indices. -/
def digitsToNat (cs : List Char) : Nat :=
  cs.foldl (fun acc c => acc * 10 + (c.toNat - 48)) 0

/-- Array index token of a JSON pointer: digits with no leading zero. -/
def parseArrayIndex : List Char → Option Nat
  | [] => none
  | ['0'] => some 0
  | c :: rest =>
    if c == '0' then none
    else if (c :: rest).all Char.isDigit then some (digitsToNat (c :: rest))
    else none

/-- Walk a resource tree along unescaped pointer tokens. -/
def pointerGo : Json → List (List Char) → Option Json
  | j, [] => some j
  | Json.obj fs, t :: ts =>
    match fs.lookup (List.asString (unescapeChars t)) with
    | some j => pointerGo j ts
    | none => none
  | Json.arr xs, t :: ts =>
    match parseArrayIndex (unescapeChars t) with
    | some i =>
      match xs.get? i with
      | some j => pointerGo j ts
      | none => none
    | none => none
  | _, _ :: _ => none

/-- Value::pointer: the empty pointer is the whole tree, otherwise the
pointer must start with a slash. -/
def Json.pointer (j : Json) (p : String) : Option Json :=
  match p.toList with
  | [] => some j
  | '/' :: rest => pointerGo j (splitOnSlash rest)
  | _ => none

/-- Value of one character of the standard base64 alphabet. -/
def b64Val (c : Char) : Option Nat :=
  let n := c.toNat
  if 65 ≤ n && n ≤ 90 then some (n - 65)
  else if 97 ≤ n && n ≤ 122 then some (n - 97 + 26)
  else if 48 ≤ n && n ≤ 57 then some (n - 48 + 52)
  else if n == 43 then some 62
  else if n == 47 then some 63
  else none

/-- Decode base64 input four characters at a time; padding may close only
the final quantum and trailing bits must be zero, as in the base64 crate. -/
def b64DecodeGo : List Char → Option (List Nat)
  | [] => some []
  | a :: b :: c :: d :: rest =>
    match b64Val a, b64Val b with
    | some va, some vb =>
      if c == '=' then
        if d == '=' && rest.isEmpty && vb % 16 == 0 then
          some [va * 4 + vb / 16]
        else none
      else
        match b64Val c with
        | some vc =>
          if d == '=' then
            if rest.isEmpty && vc % 4 == 0 then
              some [va * 4 + vb / 16, (vb % 16) * 16 + vc / 4]
            else none
          else
            match b64Val d with
            | some vd =>
              match b64DecodeGo rest with
              | some tail =>
                some ((va * 4 + vb / 16) :: ((vb % 16) * 16 + vc / 4) ::
                      ((vc % 4) * 64 + vd) :: tail)
              | none => none
            | none => none
        | none => none
    | _, _ => none
  | _ => none

/-- base64::decode on a string value, yielding bytes. -/
def base64Decode (s : String) : Option (List Nat) := b64DecodeGo s.toList

/-- Continuation byte test for UTF-8. -/
def isCont (b : Nat) : Bool := 128 ≤ b && b ≤ 191

/-- Strict UTF-8 decoding of a byte list (overlong forms, surrogates and
out-of-range sequences rejected), the behaviour of str::from_utf8. -/
def utf8DecodeGo : List Nat → Option (List Char)
  | [] => some []
  | b :: rest =>
    if b ≤ 127 then
      (utf8DecodeGo rest).map (fun cs => Char.ofNat b :: cs)
    else if 194 ≤ b && b ≤ 223 then
      match rest with
      | b2 :: rest2 =>
        if isCont b2 then
          (utf8DecodeGo rest2).map
            (fun cs => Char.ofNat ((b - 192) * 64 + (b2 - 128)) :: cs)
        else none
      | [] => none
    else if 224 ≤ b && b ≤ 239 then
      match rest with
      | b2 :: b3 :: rest3 =>
        let okB2 :=
          if b == 224 then 160 ≤ b2 && b2 ≤ 191
          else if b == 237 then 128 ≤ b2 && b2 ≤ 159
          else isCont b2
        if okB2 && isCont b3 then
          (utf8DecodeGo rest3).map
            (fun cs =>
              Char.ofNat ((b - 224) * 4096 + (b2 - 128) * 64 + (b3 - 128)) :: cs)
        else none
      | _ => none
    else if 240 ≤ b && b ≤ 244 then
      match rest with
      | b2 :: b3 :: b4 :: rest4 =>
        let okB2 :=
          if b == 240 then 144 ≤ b2 && b2 ≤ 191
          else if b == 244 then 128 ≤ b2 && b2 ≤ 143
          else isCont b2
        if okB2 && isCont b3 && isCont b4 then
          (utf8DecodeGo rest4).map
            (fun cs =>
              Char.ofNat ((b - 240) * 262144 + (b2 - 128) * 4096 +
                          (b3 - 128) * 64 + (b4 - 128)) :: cs)
        else none
      | _ => none
    else none

/-- str::from_utf8 then to_string: bytes to text when valid. -/
def utf8Decode (bs : List Nat) : Option String :=
  (utf8DecodeGo bs).map List.asString

/-- Modelled from the spec: val_str lives in src/values.rs, which is not in
the sources; a fixed-path string descriptor resolves the path against the
tree and a missing path uses the declared default. -/
def val_str (path : String) (v : Json) (default : String) : String :=
  match (v.pointer path).bind Json.as_str with
  | some s => s
  | none => default

/-- Modelled from the spec: val_u64 lives in src/values.rs, which is not in
the sources; a fixed-path unsigned descriptor resolves the path against the
tree and a missing path uses the declared default. -/
def val_u64 (path : String) (v : Json) (default : Nat) : Nat :=
  match (v.pointer path).bind Json.as_u64 with
  | some n => n
  | none => default

/-- Modelled from the spec: the two-argument keyval_string used by the
describe evaluator is not in the sources; it renders one line per entry in
order, omitting keys found in the externally supplied always-omit set. -/
def keyval_string_skip (pairs : List (String × String)) (skip : List String) : String :=
  pairs.foldl
    (fun buf kv =>
      if skip.contains kv.1 then buf else buf ++ kv.1 ++ "=" ++ kv.2 ++ "\n")
    ""

/-- Per-entry redaction policy of keyval_str in src/describe/legacy.rs: the
computed_val binding for one key/value pair. The enclosing tree v supplies
the declared resource type for the service-account-token carve-out. A
non-string value under the secret flag hits an unwrap, modelled as none. -/
def computed_val (v : Json) (key : String) (val : Json) (secret_vals : Bool) : Option String :=
  let is_service_token : Bool :=
    if secret_vals && (key == "token") then
      (((v.pointer "/type").bind Json.as_str).getD "") == "kubernetes.io/service-account-token"
    else false
  if is_service_token then
    match val.as_str with
    | some s =>
      match base64Decode s with
      | some dec =>
        some (match utf8Decode dec with
              | some txt => txt
              | none => "Invalid utf-8 data")
      | none => some "Could not decode secret"
    | none => none
  else if secret_vals then
    match val.as_str with
    | some s =>
      match base64Decode s with
      | some dec => some (toString dec.length ++ " bytes")
      | none => some "Could not decode secret"
    | none => none
  else
    some (val.as_str.getD "<unknown>")

/-- Sequential rendering of the map entries inside keyval_str; a panic on
any entry aborts the whole dump. -/
def renderEntries (v : Json) (secret_vals : Bool) :
    List (String × Json) → Option (List (String × String))
  | [] => some []
  | (key, val) :: rest =>
    match computed_val v key val secret_vals with
    | some cv => (renderEntries v secret_vals rest).map (fun tail => (key, cv) :: tail)
    | none => none

/-- keyval_str from src/describe/legacy.rs: resolve the parent path to an
object map, render each entry under the redaction policy, and fall back to
a placeholder when the path is absent or not an object. -/
def keyval_str (skip : List String) (v : Json) (parent : String) (secret_vals : Bool) :
    Option String :=
  match v.pointer parent with
  | some p =>
    match p.as_object with
    | some keyvals =>
      match renderEntries v secret_vals keyvals with
      | some pairs => some (keyval_string_skip pairs skip)
      | none => none
    | none => some "<none>"
  | none => some "<none>"

/-- Shape check for the timestamps accepted by the external datetime
parser: an RFC 3339 UTC instant. -/
def rfc3339Shape : List Char → Bool
  | y1 :: y2 :: y3 :: y4 :: '-' :: m1 :: m2 :: '-' :: d1 :: d2 :: 'T' ::
    h1 :: h2 :: ':' :: n1 :: n2 :: ':' :: s1 :: s2 :: rest =>
    ([y1, y2, y3, y4, m1, m2, d1, d2, h1, h2, n1, n2, s1, s2].all Char.isDigit)
      && rest == ['Z']
  | _ => false

/-- Modelled from the spec: chrono DateTime parsing is external; it accepts
RFC 3339 timestamp strings and rejects other text, in particular the
placeholder default used for an absent creation timestamp. -/
def rfc3339Parse (s : String) : Option String :=
  if rfc3339Shape s.toList then some s else none

/-- Field descriptor variants of DescItem in src/describe/legacy.rs. -/
inductive DescItem where
  | valStr (path : String) (default : String)
  | valu64 (path : String) (default : Nat)
  | keyValStr (parent : String) (secret_vals : Bool)
  | metadataValStr (path : String) (default : String)
  | objectCreated
  | customFunc (path : Option String) (func : Json → String) (default : String)

/-- Render of a parsed creation instant: the UTC instant followed by its
local-zone form in parentheses (local-zone formatting is environmental). -/
def renderCreated (t : String) : String := t ++ " (" ++ t ++ ")"

/-- Evaluation of one field descriptor inside describe_object. The
ObjectCreated arm parses whatever val_str produced, including the absent
default, and unwraps the result: a failed parse is a panic, none. -/
def evalDescItem (skip : List String) (v metadata : Json) : DescItem → Option String
  | DescItem.valStr path default => some (val_str path v default)
  | DescItem.valu64 path default => some (toString (val_u64 path v default))
  | DescItem.keyValStr parent secret_vals => keyval_str skip v parent secret_vals
  | DescItem.metadataValStr path default => some (val_str path metadata default)
  | DescItem.objectCreated =>
    match rfc3339Parse (val_str "/creationTimestamp" metadata "<No CreationTime>") with
    | some t => some (renderCreated t)
    | none => none
  | DescItem.customFunc path func default =>
    match path with
    | some p =>
      match v.pointer p with
      | some vv => some (func vv)
      | none => some default
    | none => some (func v)

/-- Sequential evaluation of the descriptor list, one (title, text) row per
descriptor; a panic in any descriptor aborts the report. -/
def describe_fields (skip : List String) (v metadata : Json) :
    List (String × DescItem) → Option (List (String × String))
  | [] => some []
  | (title, item) :: rest =>
    match evalDescItem skip v metadata item with
    | some txt => (describe_fields skip v metadata rest).map (fun tail => (title, txt) :: tail)
    | none => none

/-- describe_object from src/describe/legacy.rs: the metadata sub-tree is
unwrapped before the field loop, so a tree without metadata is a panic
regardless of the descriptor list. -/
def describe_object (skip : List String) (v : Json) (fields : List (String × DescItem)) :
    Option (List (String × String)) :=
  match v.get? "metadata" with
  | none => none
  | some metadata => describe_fields skip v metadata fields

/-- Object metadata carried by every listable resource: the fields the
built-in column extractors read. Labels are the entry list of a BTreeMap in
its iteration order; the creation timestamp is an instant in seconds. -/
structure ObjectMeta where
  name : Option String
  nspace : Option String
  creationTimestamp : Option Int
  labels : List (String × String)
deriving DecidableEq

/-- Object Handle recorded in Context Memory: kind, name, namespace. -/
structure KObj where
  kind : String
  name : String
  nspace : Option String
deriving DecidableEq

/-- A table cell: the synthetic index cell, or a lazily rendered,
possibly-absent text value. -/
inductive CellSpec where
  | index
  | cell (text : Option String)
deriving DecidableEq

/-- Rendered text of a cell; the index cell carries none at build time. -/
def CellSpec.text : CellSpec → Option String
  | CellSpec.index => none
  | CellSpec.cell t => t

/-- Modelled from the spec: CellSpec lives in src/table.rs, which is not in
the sources; a cell matches a filter pattern when its rendered text does. -/
def CellSpec.matches (c : CellSpec) (regex : String → Bool) : Bool :=
  match c.text with
  | some t => regex t
  | none => false

/-- Modelled from the spec: CellSpec lives in src/table.rs, which is not in
the sources; cells order by their rendered text. -/
def CellSpec.textLe (a b : CellSpec) : Bool := optStrLe a.text b.text

/-- format_duration from src/command/mod.rs over a duration in seconds,
with the truncating division of chrono duration accessors. -/
def format_duration (duration : Int) : String :=
  let num_days := duration.tdiv 86400
  let num_hours := duration.tdiv 3600
  let num_minutes := duration.tdiv 60
  let num_seconds := duration
  if num_days > 365 then
    let yrs := num_days.tdiv 365
    toString yrs ++ "y " ++ toString (num_days - yrs * 365) ++ "d"
  else if num_days > 0 then
    toString num_days ++ "d " ++ toString (num_hours - 24 * num_days) ++ "h"
  else if num_hours > 0 then
    toString num_hours ++ "h " ++ toString (num_minutes - 60 * num_hours) ++ "m"
  else if num_minutes > 0 then
    toString num_minutes ++ "m " ++ toString (num_seconds - 60 * num_minutes) ++ "s"
  else
    toString num_seconds ++ "s"

/-- time_since from src/command/mod.rs, with the current instant passed
explicitly. -/
def time_since (now date : Int) : String := format_duration (now - date)

/-- keyval_string from src/command/mod.rs over the label map entries. -/
def keyval_string (keyvals : List (String × String)) : String :=
  keyvals.foldl (fun buf kv => buf ++ kv.1 ++ "=" ++ kv.2 ++ "\n") ""

/-- extract_name from src/command/mod.rs. -/
def extract_name {α : Type} (meta : α → ObjectMeta) (obj : α) : Option String :=
  (meta obj).name

/-- extract_age from src/command/mod.rs. -/
def extract_age {α : Type} (now : Int) (meta : α → ObjectMeta) (obj : α) : Option String :=
  (meta obj).creationTimestamp.map (fun ts => time_since now ts)

/-- extract_namespace from src/command/mod.rs. -/
def extract_namespace {α : Type} (meta : α → ObjectMeta) (obj : α) : Option String :=
  (meta obj).nspace

/-- extract_labels from src/command/mod.rs. -/
def extract_labels {α : Type} (meta : α → ObjectMeta) (obj : α) : Option String :=
  some (keyval_string (meta obj).labels)

/-- One column of one row inside build_specs: the four built-in columns
bypass the registry; any other column must have a registry entry, and a
missing entry is a panic, none. -/
def extract_col {α : Type} (extractors : Option (List (String × (α → Option String))))
    (meta : α → ObjectMeta) (now : Int) (item : α) (col : String) : Option CellSpec :=
  if col == "Age" then some (CellSpec.cell (extract_age now meta item))
  else if col == "Labels" then some (CellSpec.cell (extract_labels meta item))
  else if col == "Name" then some (CellSpec.cell (extract_name meta item))
  else if col == "Namespace" then some (CellSpec.cell (extract_namespace meta item))
  else
    match extractors with
    | some ex =>
      match ex.lookup col with
      | some f => some (CellSpec.cell (f item))
      | none => none
    | none => none

/-- Cells of one row, in column order. -/
def colCells {α : Type} (extractors : Option (List (String × (α → Option String))))
    (meta : α → ObjectMeta) (now : Int) (item : α) :
    List String → Option (List CellSpec)
  | [] => some []
  | col :: cs =>
    match extract_col extractors meta now item col with
    | some cellv => (colCells extractors meta now item cs).map (fun tail => cellv :: tail)
    | none => none

/-- One row of build_specs: the synthetic index cell first when requested,
then one cell per column. -/
def build_row {α : Type} (cols : List String) (extractors : Option (List (String × (α → Option String))))
    (include_index : Bool) (meta : α → ObjectMeta) (now : Int) (item : α) :
    Option (List CellSpec) :=
  match colCells extractors meta now item cols with
  | some cells => some ((if include_index then [CellSpec.index] else []) ++ cells)
  | none => none

/-- row_matches from src/command/mod.rs: the fold over cells keeping the
first successful match. -/
def row_matches (row : List CellSpec) (regex : String → Bool) : Bool :=
  row.foldl
    (fun has_match cell_spec =>
      if !has_match then cell_spec.matches regex else has_match)
    false

/-- build_specs from src/command/mod.rs: one (Object Handle, row) pair per
resource in input order, kept under an optional filter pattern iff some
cell matches. -/
def build_specs {α : Type} (cols : List String)
    (extractors : Option (List (String × (α → Option String))))
    (include_index : Bool) (regex : Option (String → Bool)) (get_kobj : α → KObj)
    (meta : α → ObjectMeta) (now : Int) :
    List α → Option (List (KObj × List CellSpec))
  | [] => some []
  | item :: rest =>
    match build_row cols extractors include_index meta now item with
    | none => none
    | some row =>
      match build_specs cols extractors include_index regex get_kobj meta now rest with
      | none => none
      | some ret =>
        match regex with
        | some rx =>
          if row_matches row rx then some ((get_kobj item, row) :: ret) else some ret
        | none => some ((get_kobj item, row) :: ret)

/-- Sort Directive: a pre-extraction comparator over raw resources, or a
post-extraction target column name. -/
inductive SortFunc (α : Type) where
  | pre (cmp : α → α → Ordering)
  | post (col : String)

/-- Non-strict order induced by a pre-extraction comparator, as used by the
stable slice sort. -/
def preLe {α : Type} (cmp : α → α → Ordering) (a b : α) : Prop :=
  cmp a b ≠ Ordering.gt

instance {α : Type} (cmp : α → α → Ordering) (a b : α) : Decidable (preLe cmp a b) :=
  inferInstanceAs (Decidable (cmp a b ≠ Ordering.gt))

/-- Order on rows by the rendered text of the cell at a fixed position. -/
def rowTextLe (idx : Nat) (r1 r2 : List CellSpec) : Prop :=
  CellSpec.textLe (r1.getD idx (CellSpec.cell none)) (r2.getD idx (CellSpec.cell none)) = true

instance (idx : Nat) (r1 r2 : List CellSpec) : Decidable (rowTextLe idx r1 r2) :=
  inferInstanceAs
    (Decidable (CellSpec.textLe (r1.getD idx (CellSpec.cell none))
      (r2.getD idx (CellSpec.cell none)) = true))

/-- The row order lifted to (Object Handle, row) pairs, the element type of
the built specs. -/
def rowLe (idx : Nat) (a b : KObj × List CellSpec) : Prop := rowTextLe idx a.2 b.2

instance (idx : Nat) (a b : KObj × List CellSpec) : Decidable (rowLe idx a b) :=
  inferInstanceAs (Decidable (rowTextLe idx a.2 b.2))

/-- Warning printed when the requested sort column is not in the output. -/
def sortWarning (colname : String) : String :=
  "Asked to sort by " ++ colname ++ ", but that is not a column in the output"

/-- Pre-extraction sort of the raw items (list.items.sort_by), a stable
sort by the supplied comparator; other sort modes leave the items alone. -/
def preSortItems {α : Type} (sort : Option (SortFunc α)) (items : List α) : List α :=
  match sort with
  | some (SortFunc.pre cmp) => List.insertionSort (preLe cmp) items
  | _ => items

/-- Post-extraction sort step of handle_list_result: look up the requested
column among the column names, offset by one for the synthetic leading
index column, and stably sort the specs by that cell; an absent column
emits a warning and leaves the specs unsorted. The unwrap of the indexed
cell is a panic, none, when some row is too short. -/
def postSort {α : Type} (cols : List String) (specs : List (KObj × List CellSpec)) :
    Option (SortFunc α) → Option (List String × List (KObj × List CellSpec))
  | some (SortFunc.post colname) =>
    match cols.findIdx? (fun c => c == colname) with
    | some index =>
      let idx := index + 1
      if specs.all (fun s => idx < s.2.length) then
        some ([], List.insertionSort (rowLe idx) specs)
      else none
    | none => some ([sortWarning colname], specs)
  | _ => some ([], specs)

/-- Observable outcome of one list projection: warnings written through the
click writer, the printed table (titles and rows, present iff a source list
was), and the Object Handle sequence stored into Context Memory. -/
structure ListResult where
  warnings : List String
  titles : List String
  printed : Bool
  rows : List (List CellSpec)
  lastObjs : List KObj
deriving DecidableEq

/-- handle_list_result from src/command/mod.rs: pre-sort the items, build
the filtered specs, post-sort, reverse last, print, and replace Context
Memory with the final handles; an absent source list clears Context Memory
and prints nothing. -/
def handle_list_result {α : Type} (cols : List String) (list_opt : Option (List α))
    (extractors : Option (List (String × (α → Option String))))
    (regex : Option (String → Bool)) (sort : Option (SortFunc α)) (reverse : Bool)
    (get_kobj : α → KObj) (meta : α → ObjectMeta) (now : Int) : Option ListResult :=
  match list_opt with
  | some items =>
    let items2 := preSortItems sort items
    match build_specs cols extractors true regex get_kobj meta now items2 with
    | none => none
    | some specs =>
      match postSort cols specs sort with
      | none => none
      | some ws =>
        let specs3 := if reverse then ws.2.reverse else ws.2
        some ⟨ws.1, "####" :: cols, true, specs3.map Prod.snd, specs3.map Prod.fst⟩
  | none => some ⟨[], [], false, [], []⟩

/-- Outcome of run_list_command: either the early return on a malformed
filter pattern, with the message written to stderr and Context Memory left
as it was, or a run of the list projection. -/
inductive RunOutcome where
  | abortedEarly (stderrMsg : String) (lastObjs : List KObj)
  | ran (res : Option ListResult)
deriving DecidableEq

/-- Whether the outcome ran the list projection to completion. -/
def RunOutcome.ranProjection : RunOutcome → Bool
  | RunOutcome.abortedEarly _ _ => false
  | RunOutcome.ran (some _) => true
  | RunOutcome.ran none => false

/-- run_list_command from src/command/mod.rs, filter handling at its head:
the compiled filter pattern arrives as an Except (get_regex lives in
src/table.rs, not in the sources; per the spec it compiles the supplied
pattern and reports a malformed one as an error string). On an error the
message is written to stderr and the function returns Ok immediately,
before the list is fetched or projected; otherwise the projection runs
with the compiled pattern. Flag and sort-argument resolution (clap) is
external and arrives pre-resolved. -/
def run_list_command {α : Type} (lastObjs : List KObj)
    (regexResult : Except String (Option (String → Bool))) (cols : List String)
    (list_opt : Option (List α))
    (extractors : Option (List (String × (α → Option String))))
    (sort : Option (SortFunc α)) (reverse : Bool) (get_kobj : α → KObj)
    (meta : α → ObjectMeta) (now : Int) : RunOutcome :=
  match regexResult with
  | Except.error s => RunOutcome.abortedEarly s lastObjs
  | Except.ok regex =>
    RunOutcome.ran
      (handle_list_result cols list_opt extractors regex sort reverse get_kobj meta now)

/-- Sample Object Handle builder used by concrete instantiations. -/
def sampleKObj (m : ObjectMeta) : KObj := ⟨"pod", m.name.getD "", m.nspace⟩

/-- Sample resource metadata used by concrete instantiations. -/
def metaA : ObjectMeta := ⟨some "alpha", some "ns1", some 100, []⟩

/-- Second sample resource metadata used by concrete instantiations. -/
def metaB : ObjectMeta := ⟨some "beta", some "ns1", none, []⟩

theorem charListLe_total (a : List Char) : ∀ b, charListLe a b = true ∨ charListLe b a = true := by
  induction a with
  | nil => intro b; exact Or.inl rfl
  | cons x xs ih =>
    intro b
    cases b with
    | nil => exact Or.inr rfl
    | cons y ys =>
      simp only [charListLe, Bool.or_eq_true, Bool.and_eq_true, beq_iff_eq, decide_eq_true_eq]
      rcases Nat.lt_trichotomy x.toNat y.toNat with h | h | h
      · exact Or.inl (Or.inl h)
      · rcases ih ys with h2 | h2
        · exact Or.inl (Or.inr ⟨h, h2⟩)
        · exact Or.inr (Or.inr ⟨h.symm, h2⟩)
      · exact Or.inr (Or.inl h)

theorem charListLe_trans (a : List Char) :
    ∀ b c, charListLe a b = true → charListLe b c = true → charListLe a c = true := by
  induction a with
  | nil => intro b c _ _; rfl
  | cons x xs ih =>
    intro b c h1 h2
    cases b with
    | nil => simp [charListLe] at h1
    | cons y ys =>
      cases c with
      | nil => simp [charListLe] at h2
      | cons z zs =>
        simp only [charListLe, Bool.or_eq_true, Bool.and_eq_true, beq_iff_eq,
          decide_eq_true_eq] at h1 h2 ⊢
        rcases h1 with h1 | ⟨he1, hr1⟩
        · rcases h2 with h2 | ⟨he2, hr2⟩
          · exact Or.inl (Nat.lt_trans h1 h2)
          · exact Or.inl (he2 ▸ h1)
        · rcases h2 with h2 | ⟨he2, hr2⟩
          · exact Or.inl (he1 ▸ h2)
          · exact Or.inr ⟨he1.trans he2, ih ys zs hr1 hr2⟩

theorem optStrLe_total (a b : Option String) : optStrLe a b = true ∨ optStrLe b a = true := by
  cases a with
  | none => exact Or.inl rfl
  | some sa =>
    cases b with
    | none => exact Or.inr rfl
    | some sb => exact charListLe_total sa.toList sb.toList

theorem optStrLe_trans (a b c : Option String) :
    optStrLe a b = true → optStrLe b c = true → optStrLe a c = true := by
  cases a with
  | none => intro _ _; rfl
  | some sa =>
    cases b with
    | none => intro h _; simp [optStrLe] at h
    | some sb =>
      cases c with
      | none => intro _ h; simp [optStrLe] at h
      | some sc => exact charListLe_trans sa.toList sb.toList sc.toList

theorem rowLe_total (idx : Nat) (a b : KObj × List CellSpec) : rowLe idx a b ∨ rowLe idx b a :=
  optStrLe_total _ _

theorem rowLe_trans (idx : Nat) (a b c : KObj × List CellSpec) :
    rowLe idx a b → rowLe idx b c → rowLe idx a c :=
  optStrLe_trans _ _ _

theorem colCells_length {α : Type} (extractors : Option (List (String × (α → Option String))))
    (meta : α → ObjectMeta) (now : Int) (item : α) :
    ∀ (cols : List String) (cells : List CellSpec),
      colCells extractors meta now item cols = some cells → cells.length = cols.length := by
  intro cols
  induction cols with
  | nil => intro cells h; cases h; rfl
  | cons col cs ih =>
    intro cells h
    unfold colCells at h
    cases he : extract_col extractors meta now item col with
    | none => rw [he] at h; cases h
    | some cellv =>
      rw [he] at h
      cases hr : colCells extractors meta now item cs with
      | none => rw [hr] at h; cases h
      | some tail =>
        rw [hr] at h
        cases h
        simp [ih tail hr]

theorem build_row_length {α : Type} (cols : List String)
    (extractors : Option (List (String × (α → Option String)))) (meta : α → ObjectMeta)
    (now : Int) (item : α) (row : List CellSpec)
    (h : build_row cols extractors true meta now item = some row) :
    row.length = cols.length + 1 := by
  unfold build_row at h
  cases hc : colCells extractors meta now item cols with
  | none => rw [hc] at h; cases h
  | some cells =>
    rw [hc] at h
    cases h
    simp [colCells_length extractors meta now item cols cells hc, Nat.add_comm]

theorem build_specs_mem_length {α : Type} (cols : List String)
    (extractors : Option (List (String × (α → Option String))))
    (regex : Option (String → Bool)) (get_kobj : α → KObj) (meta : α → ObjectMeta) (now : Int) :
    ∀ (items : List α) (specs : List (KObj × List CellSpec)),
      build_specs cols extractors true regex get_kobj meta now items = some specs →
      ∀ p ∈ specs, p.2.length = cols.length + 1 := by
  intro items
  induction items with
  | nil => intro specs h; cases h; intro p hp; cases hp
  | cons item rest ih =>
    intro specs h
    unfold build_specs at h
    cases hr : build_row cols extractors true meta now item with
    | none => rw [hr] at h; cases h
    | some row =>
      rw [hr] at h
      cases hs : build_specs cols extractors true regex get_kobj meta now rest with
      | none => rw [hs] at h; cases h
      | some ret =>
        rw [hs] at h
        have hrow := build_row_length cols extractors meta now item row hr
        cases regex with
        | none =>
          dsimp only at h
          cases h
          intro p hp
          rcases List.mem_cons.mp hp with hp | hp
          · rw [hp]; exact hrow
          · exact ih ret hs p hp
        | some rx =>
          dsimp only at h
          by_cases hm : row_matches row rx = true
          · rw [if_pos hm] at h
            cases h
            intro p hp
            rcases List.mem_cons.mp hp with hp | hp
            · rw [hp]; exact hrow
            · exact ih ret hs p hp
          · rw [if_neg hm] at h
            cases h
            exact ih _ hs

theorem build_specs_filter {α : Type} (cols : List String)
    (extractors : Option (List (String × (α → Option String))))
    (rx : String → Bool) (get_kobj : α → KObj) (meta : α → ObjectMeta) (now : Int) :
    ∀ (items : List α) (l0 : List (KObj × List CellSpec)),
      build_specs cols extractors true none get_kobj meta now items = some l0 →
      build_specs cols extractors true (some rx) get_kobj meta now items
        = some (l0.filter (fun kr => row_matches kr.2 rx)) := by
  intro items
  induction items with
  | nil => intro l0 h; cases h; rfl
  | cons item rest ih =>
    intro l0 h
    unfold build_specs at h ⊢
    cases hr : build_row cols extractors true meta now item with
    | none => rw [hr] at h; cases h
    | some row =>
      rw [hr] at h
      cases hs : build_specs cols extractors true none get_kobj meta now rest with
      | none => rw [hs] at h; cases h
      | some ret =>
        rw [hs] at h
        dsimp only at h
        cases h
        rw [ih ret hs]
        dsimp only
        by_cases hm : row_matches row rx = true
        · rw [if_pos hm, List.filter_cons, hm, if_pos rfl]
        · rw [if_neg hm, List.filter_cons]
          rw [Bool.not_eq_true] at hm
          rw [hm, if_neg Bool.false_ne_true]

theorem row_matches_foldl (rx : String → Bool) :
    ∀ (row : List CellSpec) (b : Bool),
      row.foldl (fun has_match cell_spec =>
        if !has_match then cell_spec.matches rx else has_match) b
      = (b || row.any (fun c => c.matches rx)) := by
  intro row
  induction row with
  | nil => intro b; simp
  | cons c cs ih =>
    intro b
    rw [List.foldl_cons, ih]
    cases b with
    | false => simp [List.any_cons]
    | true => simp

theorem row_matches_any (rx : String → Bool) (row : List CellSpec) :
    row_matches row rx = row.any (fun c => c.matches rx) := by
  unfold row_matches
  rw [row_matches_foldl rx row false]
  simp

theorem findIdx?_none_of_not_mem (colname : String) :
    ∀ (cols : List String) (i : Nat), colname ∉ cols →
      List.findIdx? (fun c => c == colname) cols i = none := by
  intro cols
  induction cols with
  | nil => intro i _; rfl
  | cons x xs ih =>
    intro i hmem
    have hx : (x == colname) = false := by
      simp only [beq_eq_false_iff_ne, ne_eq]
      intro hx
      exact hmem (hx ▸ List.mem_cons_self x xs)
    simp only [List.findIdx?, hx]
    exact ih (i + 1) (fun hm => hmem (List.mem_cons_of_mem x hm))

theorem findIdx?_some_lt {β : Type} (p : β → Bool) :
    ∀ (l : List β) (i j : Nat), List.findIdx? p l i = some j → j < i + l.length := by
  intro l
  induction l with
  | nil => intro i j h; cases h
  | cons x xs ih =>
    intro i j h
    simp only [List.findIdx?] at h
    by_cases hp : p x = true
    · rw [if_pos hp] at h
      cases h
      simp only [List.length_cons]
      omega
    · rw [if_neg hp] at h
      have := ih (i + 1) j h
      simp only [List.length_cons]
      omega

theorem renderEntries_none_of_mem (v : Json) (secret_vals : Bool) (key : String) (val : Json) :
    ∀ (keyvals : List (String × Json)), (key, val) ∈ keyvals →
      computed_val v key val secret_vals = none →
      renderEntries v secret_vals keyvals = none := by
  intro keyvals
  induction keyvals with
  | nil => intro hm; cases hm
  | cons kv rest ih =>
    intro hm hcv
    cases kv with
    | mk k w =>
      unfold renderEntries
      rcases List.mem_cons.mp hm with heq | hmem
      · injection heq with h1 h2
        subst h1
        subst h2
        rw [hcv]
      · cases hc : computed_val v k w secret_vals with
        | none => rfl
        | some cv => rw [ih hmem hcv]; rfl

/-- C9: evaluating any describe descriptor list against a resource tree
with no metadata sub-tree is a hard failure before any field is rendered,
even when no descriptor in the list references metadata: describe_object
unwraps the metadata lookup first. -/
theorem claim_c9_describe_requires_metadata (skip : List String) (v : Json)
    (fields : List (String × DescItem)) (h : v.get? "metadata" = none) :
    describe_object skip v fields = none := by
  unfold describe_object
  rw [h]

/-- Witness for C9 at a concrete metadata-free tree whose single descriptor
does not reference metadata. -/
theorem claim_c9_witness :
    describe_object [] (Json.obj [("spec", Json.str "x")])
      [("Field:", DescItem.valStr "/spec" "<none>")] = none :=
  claim_c9_describe_requires_metadata [] (Json.obj [("spec", Json.str "x")])
    [("Field:", DescItem.valStr "/spec" "<none>")] rfl

/-- C2 evidence: a resource tree whose metadata carries no creation
timestamp makes the ObjectCreated descriptor panic instead of rendering its
default text, because the default placeholder is fed to the datetime parser
and the parse result is unwrapped. -/
theorem claim_c2_absent_timestamp_hard_failure :
    describe_object [] (Json.obj [("metadata", Json.obj [])])
      [("Created at:", DescItem.objectCreated)] = none := by
  rfl

/-- C3: under the secret flag, an entry outside the service-account-token
carve-out renders only the decoded byte count for valid base64, renders the
decode-failure placeholder otherwise, and every rendered output is one of
those two forms, never the raw value. -/
theorem claim_c3_flagged_entry_redaction (v val : Json) (key s : String)
    (hs : val.as_str = some s)
    (hnc : ¬(key = "token" ∧ (((v.pointer "/type").bind Json.as_str).getD "")
        = "kubernetes.io/service-account-token")) :
    (∀ bs, base64Decode s = some bs →
      computed_val v key val true = some (toString bs.length ++ " bytes"))
    ∧ (base64Decode s = none → computed_val v key val true = some "Could not decode secret")
    ∧ (∀ out, computed_val v key val true = some out →
      out = toString (((base64Decode s).getD []).length) ++ " bytes"
      ∨ out = "Could not decode secret") := by
  have hcv : computed_val v key val true
      = (match base64Decode s with
         | some dec => some (toString dec.length ++ " bytes")
         | none => some "Could not decode secret") := by
    simp only [computed_val]
    have hst : (if true && (key == "token") then
        ((((v.pointer "/type").bind Json.as_str).getD "")
          == "kubernetes.io/service-account-token")
      else false) = false := by
      by_cases hk : key = "token"
      · subst hk
        have hne : ¬((((v.pointer "/type").bind Json.as_str).getD "")
            = "kubernetes.io/service-account-token") := fun hh => hnc ⟨rfl, hh⟩
        simp [hne]
      · simp [hk]
    rw [hst]
    rw [if_neg Bool.false_ne_true, if_pos trivial, hs]
  refine ⟨?_, ?_, ?_⟩
  · intro bs hb
    rw [hcv, hb]
  · intro hb
    rw [hcv, hb]
  · intro out hout
    rw [hcv] at hout
    cases hb : base64Decode s with
    | some dec =>
      rw [hb] at hout
      injection hout with hh
      subst hh
      left
      rfl
    | none =>
      rw [hb] at hout
      injection hout with hh
      subst hh
      right
      rfl

/-- Witness for C3: the spec scenario, an Opaque secret entry holding the
base64 encoding of a seven-byte password renders as a byte count. -/
theorem claim_c3_witness :
    computed_val (Json.obj [("type", Json.str "Opaque")]) "password"
      (Json.str "aHVudGVyMg==") true = some "7 bytes"
    ∧ computed_val (Json.obj [("type", Json.str "Opaque")]) "password"
      (Json.str "not//valid!!") true = some "Could not decode secret" := by
  have h := claim_c3_flagged_entry_redaction (Json.obj [("type", Json.str "Opaque")])
    (Json.str "aHVudGVyMg==") "password" "aHVudGVyMg==" rfl (by decide)
  have h2 := claim_c3_flagged_entry_redaction (Json.obj [("type", Json.str "Opaque")])
    (Json.str "not//valid!!") "password" "not//valid!!" rfl (by decide)
  constructor
  · have hb := h.1 [104, 117, 110, 116, 101, 114, 50] (by decide)
    exact hb.trans (by decide)
  · exact h2.2.1 (by decide)

/-- C4: under the secret flag, the entry with key token inside a resource
whose declared type is exactly the service-account-token type renders the
full base64-decoded plaintext; invalid UTF-8 in the decoded bytes renders
an explicit error placeholder and a base64 decode failure renders the
could-not-decode placeholder. -/
theorem claim_c4_service_token_plaintext (v val : Json) (s : String)
    (hs : val.as_str = some s)
    (ht : (((v.pointer "/type").bind Json.as_str).getD "")
        = "kubernetes.io/service-account-token") :
    (∀ bs txt, base64Decode s = some bs → utf8Decode bs = some txt →
      computed_val v "token" val true = some txt)
    ∧ (∀ bs, base64Decode s = some bs → utf8Decode bs = none →
      computed_val v "token" val true = some "Invalid utf-8 data")
    ∧ (base64Decode s = none →
      computed_val v "token" val true = some "Could not decode secret") := by
  have hcv : computed_val v "token" val true
      = (match base64Decode s with
         | some dec =>
           some (match utf8Decode dec with
                 | some txt => txt
                 | none => "Invalid utf-8 data")
         | none => some "Could not decode secret") := by
    simp only [computed_val]
    have hst : (if true && ("token" == "token") then
        ((((v.pointer "/type").bind Json.as_str).getD "")
          == "kubernetes.io/service-account-token")
      else false) = true := by
      simp [ht]
    rw [hst, if_pos rfl, hs]
  refine ⟨?_, ?_, ?_⟩
  · intro bs txt hb hu
    rw [hcv, hb]
    dsimp only
    rw [hu]
  · intro bs hb hu
    rw [hcv, hb]
    dsimp only
    rw [hu]
  · intro hb
    rw [hcv, hb]

/-- Witness for C4: the spec scenario, a service-account-token secret whose
token entry is the base64 encoding of a bearer token, rendered in full; a
non-UTF-8 payload and a malformed payload render their placeholders. -/
theorem claim_c4_witness :
    computed_val (Json.obj [("type", Json.str "kubernetes.io/service-account-token")])
      "token" (Json.str "YWJjLmRlZi5naGk=") true = some "abc.def.ghi"
    ∧ computed_val (Json.obj [("type", Json.str "kubernetes.io/service-account-token")])
      "token" (Json.str "/w==") true = some "Invalid utf-8 data"
    ∧ computed_val (Json.obj [("type", Json.str "kubernetes.io/service-account-token")])
      "token" (Json.str "!!!!") true = some "Could not decode secret" := by
  have h1 := claim_c4_service_token_plaintext
    (Json.obj [("type", Json.str "kubernetes.io/service-account-token")])
    (Json.str "YWJjLmRlZi5naGk=") "YWJjLmRlZi5naGk=" rfl (by decide)
  have h2 := claim_c4_service_token_plaintext
    (Json.obj [("type", Json.str "kubernetes.io/service-account-token")])
    (Json.str "/w==") "/w==" rfl (by decide)
  have h3 := claim_c4_service_token_plaintext
    (Json.obj [("type", Json.str "kubernetes.io/service-account-token")])
    (Json.str "!!!!") "!!!!" rfl (by decide)
  refine ⟨?_, ?_, ?_⟩
  · exact h1.1 [97, 98, 99, 46, 100, 101, 102, 46, 103, 104, 105] "abc.def.ghi"
      (by decide) (by decide)
  · exact h2.2.1 [255] (by decide) (by decide)
  · exact h3.2.2 (by decide)

/-- C10: under the secret flag, an entry whose value is not a textual node
is a hard failure rather than a rendered placeholder, and the failure
propagates through the whole key/value dump. -/
theorem claim_c10_non_string_secret_value_panics (v val : Json) (key : String)
    (hval : val.as_str = none) :
    computed_val v key val true = none
    ∧ (∀ (parent : String) (keyvals : List (String × Json)) (skip : List String),
        v.pointer parent = some (Json.obj keyvals) → (key, val) ∈ keyvals →
        keyval_str skip v parent true = none) := by
  have h1 : computed_val v key val true = none := by
    simp only [computed_val]
    by_cases hC : (if true && (key == "token") then
        ((((v.pointer "/type").bind Json.as_str).getD "")
          == "kubernetes.io/service-account-token")
      else false) = true
    · rw [if_pos hC, hval]
    · rw [if_neg hC, if_pos trivial, hval]
  refine ⟨h1, ?_⟩
  intro parent keyvals skip hp hm
  unfold keyval_str
  rw [hp]
  dsimp only [Json.as_object]
  rw [renderEntries_none_of_mem v true key val keyvals hm h1]

/-- Witness for C10: a flagged dump whose entry value is a number panics
instead of rendering a placeholder. -/
theorem claim_c10_witness :
    computed_val (Json.obj [("data", Json.obj [("count", Json.num 3)])]) "count"
      (Json.num 3) true = none
    ∧ keyval_str [] (Json.obj [("data", Json.obj [("count", Json.num 3)])]) "/data" true
      = none := by
  have h := claim_c10_non_string_secret_value_panics
    (Json.obj [("data", Json.obj [("count", Json.num 3)])]) (Json.num 3) "count" rfl
  exact ⟨h.1, h.2 "/data" [("count", Json.num 3)] [] rfl (List.mem_cons_self _ _)⟩

/-- C1 counterexample: at a concrete malformed filter pattern the command
reports the failure and returns immediately; the list projection does not
run at all, contradicting the claim that it continues without filtering. -/
theorem claim_c1_counterexample :
    run_list_command [⟨"pod", "old", none⟩] (Except.error "filter pattern error") ["Name"]
      (some [metaA]) none none false sampleKObj id 0
      = RunOutcome.abortedEarly "filter pattern error" [⟨"pod", "old", none⟩]
    ∧ (run_list_command [⟨"pod", "old", none⟩] (Except.error "filter pattern error") ["Name"]
        (some [metaA]) none none false sampleKObj id 0).ranProjection = false :=
  ⟨rfl, rfl⟩

/-- C1 amended: when the supplied filter pattern is malformed the failure
is reported to the user on stderr and the command returns success
immediately; the list projection does not run and Context Memory is left
unchanged. -/
theorem claim_c1_amended_abort_on_bad_filter {α : Type} (lastObjs : List KObj) (s : String)
    (cols : List String) (list_opt : Option (List α))
    (extractors : Option (List (String × (α → Option String))))
    (sort : Option (SortFunc α)) (reverse : Bool) (get_kobj : α → KObj)
    (meta : α → ObjectMeta) (now : Int) :
    run_list_command lastObjs (Except.error s) cols list_opt extractors sort reverse
      get_kobj meta now = RunOutcome.abortedEarly s lastObjs
    ∧ (run_list_command lastObjs (Except.error s) cols list_opt extractors sort reverse
        get_kobj meta now).ranProjection = false :=
  ⟨rfl, rfl⟩

theorem postSort_none_eq {α : Type} (cols : List String)
    (specs : List (KObj × List CellSpec)) :
    postSort cols specs (none : Option (SortFunc α)) = some ([], specs) := rfl

theorem postSort_absent_eq {α : Type} (cols : List String)
    (specs : List (KObj × List CellSpec)) (colname : String) (hmem : colname ∉ cols) :
    postSort cols specs (some (SortFunc.post colname) : Option (SortFunc α))
      = some ([sortWarning colname], specs) := by
  unfold postSort
  dsimp only
  rw [findIdx?_none_of_not_mem colname cols 0 hmem]

theorem postSort_present_eq {α : Type} (cols : List String)
    (specs : List (KObj × List CellSpec)) (colname : String) (index : Nat)
    (hidx : List.findIdx? (fun c => c == colname) cols 0 = some index)
    (hlen : ∀ p ∈ specs, p.2.length = cols.length + 1) :
    postSort cols specs (some (SortFunc.post colname) : Option (SortFunc α))
      = some ([], List.insertionSort (rowLe (index + 1)) specs) := by
  unfold postSort
  dsimp only
  rw [hidx]
  dsimp only
  have hlt : index < cols.length := by
    have := findIdx?_some_lt (fun c => c == colname) cols 0 index hidx
    omega
  have hall : specs.all (fun s => index + 1 < s.2.length) = true := by
    rw [List.all_eq_true]
    intro p hp
    rw [hlen p hp]
    simp only [decide_eq_true_eq]
    omega
  rw [if_pos hall]

theorem handle_some_elim {α : Type} (cols : List String) (items : List α)
    (extractors : Option (List (String × (α → Option String))))
    (regex : Option (String → Bool)) (sort : Option (SortFunc α)) (reverse : Bool)
    (get_kobj : α → KObj) (meta : α → ObjectMeta) (now : Int) (res : ListResult)
    (h : handle_list_result cols (some items) extractors regex sort reverse
      get_kobj meta now = some res) :
    ∃ specs ws,
      build_specs cols extractors true regex get_kobj meta now (preSortItems sort items)
        = some specs
      ∧ postSort cols specs sort = some ws
      ∧ res = ⟨ws.1, "####" :: cols, true,
          (if reverse then ws.2.reverse else ws.2).map Prod.snd,
          (if reverse then ws.2.reverse else ws.2).map Prod.fst⟩ := by
  unfold handle_list_result at h
  dsimp only at h
  cases hb : build_specs cols extractors true regex get_kobj meta now
      (preSortItems sort items) with
  | none => rw [hb] at h; cases h
  | some specs =>
    rw [hb] at h
    dsimp only at h
    cases hp : postSort cols specs sort with
    | none => rw [hp] at h; cases h
    | some ws =>
      rw [hp] at h
      dsimp only at h
      cases h
      exact ⟨specs, ws, rfl, hp, rfl⟩

theorem handle_some_intro {α : Type} (cols : List String) (items : List α)
    (extractors : Option (List (String × (α → Option String))))
    (regex : Option (String → Bool)) (sort : Option (SortFunc α)) (reverse : Bool)
    (get_kobj : α → KObj) (meta : α → ObjectMeta) (now : Int)
    (specs : List (KObj × List CellSpec)) (ws : List String × List (KObj × List CellSpec))
    (hb : build_specs cols extractors true regex get_kobj meta now (preSortItems sort items)
      = some specs)
    (hp : postSort cols specs sort = some ws) :
    handle_list_result cols (some items) extractors regex sort reverse get_kobj meta now
      = some ⟨ws.1, "####" :: cols, true,
          (if reverse then ws.2.reverse else ws.2).map Prod.snd,
          (if reverse then ws.2.reverse else ws.2).map Prod.fst⟩ := by
  unfold handle_list_result
  dsimp only
  rw [hb]
  dsimp only
  rw [hp]


/-- C5: a successful list projection replaces Context Memory with exactly
the final post-sort, post-reverse Object Handle sequence of the pipeline:
the handles are the first projections of the built, post-sorted and
optionally reversed specs, the displayed rows are the second projections of
that same sequence, their lengths are equal, and an absent source list
clears Context Memory entirely. -/
theorem claim_c5_context_memory_replacement {α : Type} (cols : List String) (items : List α)
    (extractors : Option (List (String × (α → Option String))))
    (regex : Option (String → Bool)) (sort : Option (SortFunc α)) (reverse : Bool)
    (get_kobj : α → KObj) (meta : α → ObjectMeta) (now : Int) :
    (∀ res, handle_list_result cols (some items) extractors regex sort reverse
        get_kobj meta now = some res →
      ∃ specs ws,
        build_specs cols extractors true regex get_kobj meta now (preSortItems sort items)
          = some specs
        ∧ postSort cols specs sort = some ws
        ∧ res.lastObjs = (if reverse then ws.2.reverse else ws.2).map Prod.fst
        ∧ res.rows = (if reverse then ws.2.reverse else ws.2).map Prod.snd
        ∧ res.lastObjs.length = res.rows.length)
    ∧ (∀ res, handle_list_result cols (none : Option (List α)) extractors regex sort reverse
        get_kobj meta now = some res →
      res.lastObjs = [] ∧ res.rows = []) := by
  constructor
  · intro res h
    obtain ⟨specs, ws, hb, hp, hres⟩ := handle_some_elim cols items extractors regex
      sort reverse get_kobj meta now res h
    subst hres
    exact ⟨specs, ws, hb, hp, rfl, rfl, by simp⟩
  · intro res h
    cases h
    exact ⟨rfl, rfl⟩

/-- Witness for C5 at a concrete two-resource list: Context Memory is
exactly the handle projection of the final spec sequence. -/
theorem claim_c5_witness :
    ∃ specs ws,
      build_specs ["Name"] (none : Option (List (String × (ObjectMeta → Option String)))) true
        none sampleKObj id 0
        (preSortItems (none : Option (SortFunc ObjectMeta)) [metaA, metaB]) = some specs
      ∧ postSort ["Name"] specs (none : Option (SortFunc ObjectMeta)) = some ws
      ∧ ([⟨"pod", "alpha", some "ns1"⟩, ⟨"pod", "beta", some "ns1"⟩] : List KObj)
        = (if false then ws.2.reverse else ws.2).map Prod.fst
      ∧ ([[CellSpec.index, CellSpec.cell (some "alpha")],
          [CellSpec.index, CellSpec.cell (some "beta")]] : List (List CellSpec))
        = (if false then ws.2.reverse else ws.2).map Prod.snd
      ∧ ([⟨"pod", "alpha", some "ns1"⟩, ⟨"pod", "beta", some "ns1"⟩] : List KObj).length
        = ([[CellSpec.index, CellSpec.cell (some "alpha")],
            [CellSpec.index, CellSpec.cell (some "beta")]] : List (List CellSpec)).length := by
  exact (claim_c5_context_memory_replacement ["Name"] [metaA, metaB]
      (none : Option (List (String × (ObjectMeta → Option String)))) none
      (none : Option (SortFunc ObjectMeta)) false sampleKObj id 0).1
    ⟨[], ["####", "Name"], true,
      [[CellSpec.index, CellSpec.cell (some "alpha")],
       [CellSpec.index, CellSpec.cell (some "beta")]],
      [⟨"pod", "alpha", some "ns1"⟩, ⟨"pod", "beta", some "ns1"⟩]⟩
    (by decide)

/-- C8: with a filter pattern supplied, a row is kept iff at least one of
its cells matches, non-matching rows are dropped without error, and an
empty input list yields an empty output. -/
theorem claim_c8_filter_iff_cell_match {α : Type} (cols : List String) (items : List α)
    (extractors : Option (List (String × (α → Option String)))) (get_kobj : α → KObj)
    (meta : α → ObjectMeta) (now : Int) (rx : String → Bool)
    (l0 : List (KObj × List CellSpec))
    (h0 : build_specs cols extractors true none get_kobj meta now items = some l0) :
    build_specs cols extractors true (some rx) get_kobj meta now items
      = some (l0.filter (fun kr => (kr.2).any (fun c => c.matches rx)))
    ∧ (∀ row : List CellSpec, row_matches row rx = row.any (fun c => c.matches rx))
    ∧ build_specs cols extractors true (some rx) get_kobj meta now ([] : List α)
      = some [] := by
  refine ⟨?_, row_matches_any rx, rfl⟩
  have h := build_specs_filter cols extractors rx get_kobj meta now items l0 h0
  rw [h]
  have hfun : (fun (kr : KObj × List CellSpec) => row_matches kr.2 rx)
      = (fun kr => (kr.2).any (fun c => c.matches rx)) := by
    funext kr
    exact row_matches_any rx kr.2
  rw [hfun]

/-- Witness for C8: filtering two rows by a pattern matched only by the
first keeps exactly the first. -/
theorem claim_c8_witness :
    build_specs ["Name"] (none : Option (List (String × (ObjectMeta → Option String)))) true
      (some (fun t => t == "alpha")) sampleKObj id 0 [metaA, metaB]
      = some [(⟨"pod", "alpha", some "ns1"⟩,
               [CellSpec.index, CellSpec.cell (some "alpha")])] := by
  have h := claim_c8_filter_iff_cell_match ["Name"] [metaA, metaB]
    (none : Option (List (String × (ObjectMeta → Option String)))) sampleKObj id 0
    (fun t => t == "alpha")
    [(⟨"pod", "alpha", some "ns1"⟩, [CellSpec.index, CellSpec.cell (some "alpha")]),
     (⟨"pod", "beta", some "ns1"⟩, [CellSpec.index, CellSpec.cell (some "beta")])]
    (by decide)
  exact h.1.trans (by decide)

/-- C6: a post-extraction sort naming a column outside the active column
set emits a non-fatal warning and renders the rows unsorted; a present
column is looked up with an offset of one for the synthetic leading index
column and the rows are stably sorted by that cell's rendered text. -/
theorem claim_c6_post_sort_column {α : Type} (cols : List String) (items : List α)
    (extractors : Option (List (String × (α → Option String))))
    (regex : Option (String → Bool)) (reverse : Bool) (get_kobj : α → KObj)
    (meta : α → ObjectMeta) (now : Int) (colname : String) :
    (colname ∉ cols →
      ∀ res, handle_list_result cols (some items) extractors regex
          (some (SortFunc.post colname)) reverse get_kobj meta now = some res →
        res.warnings = [sortWarning colname]
        ∧ ∃ res0, handle_list_result cols (some items) extractors regex
            (none : Option (SortFunc α)) reverse get_kobj meta now = some res0
          ∧ res0.warnings = [] ∧ res0.rows = res.rows ∧ res0.lastObjs = res.lastObjs)
    ∧ (∀ index, List.findIdx? (fun c => c == colname) cols 0 = some index →
      ∀ res res0,
        handle_list_result cols (some items) extractors regex
          (some (SortFunc.post colname)) false get_kobj meta now = some res →
        handle_list_result cols (some items) extractors regex
          (none : Option (SortFunc α)) false get_kobj meta now = some res0 →
        res.warnings = [] ∧ res.rows.Perm res0.rows
        ∧ res.rows.Sorted (rowTextLe (index + 1))) := by
  constructor
  · intro hmem res h
    obtain ⟨specs, ws, hb, hp, hres⟩ := handle_some_elim cols items extractors regex
      (some (SortFunc.post colname)) reverse get_kobj meta now res h
    rw [postSort_absent_eq cols specs colname hmem] at hp
    injection hp with hws
    subst hws
    subst hres
    have hb0 : build_specs cols extractors true regex get_kobj meta now
        (preSortItems (none : Option (SortFunc α)) items) = some specs := hb
    have h0 := handle_some_intro cols items extractors regex (none : Option (SortFunc α))
      reverse get_kobj meta now specs ([], specs) hb0 (postSort_none_eq cols specs)
    exact ⟨rfl, ⟨_, h0, rfl, rfl, rfl⟩⟩
  · intro index hidx res res0 h h0
    obtain ⟨specs, ws, hb, hp, hres⟩ := handle_some_elim cols items extractors regex
      (some (SortFunc.post colname)) false get_kobj meta now res h
    obtain ⟨specs0, ws0, hb0, hp0, hres0⟩ := handle_some_elim cols items extractors regex
      (none : Option (SortFunc α)) false get_kobj meta now res0 h0
    have hb' : build_specs cols extractors true regex get_kobj meta now
        (preSortItems (none : Option (SortFunc α)) items) = some specs := hb
    have hspecs : specs = specs0 := by
      have h2 := hb'.symm.trans hb0
      injection h2
    subst hspecs
    have hlen := build_specs_mem_length cols extractors regex get_kobj meta now _ specs hb
    rw [postSort_present_eq cols specs colname index hidx hlen] at hp
    injection hp with hws
    subst hws
    rw [postSort_none_eq cols specs] at hp0
    injection hp0 with hws0
    subst hws0
    subst hres
    subst hres0
    refine ⟨rfl, ?_, ?_⟩
    · show ((List.insertionSort (rowLe (index + 1)) specs).map Prod.snd).Perm
        (specs.map Prod.snd)
      exact (List.perm_insertionSort (rowLe (index + 1)) specs).map Prod.snd
    · show List.Sorted (rowTextLe (index + 1))
        ((List.insertionSort (rowLe (index + 1)) specs).map Prod.snd)
      haveI : IsTotal (KObj × List CellSpec) (rowLe (index + 1)) :=
        ⟨rowLe_total (index + 1)⟩
      haveI : IsTrans (KObj × List CellSpec) (rowLe (index + 1)) :=
        ⟨rowLe_trans (index + 1)⟩
      exact List.Pairwise.map Prod.snd (fun a b hab => hab)
        (List.sorted_insertionSort (rowLe (index + 1)) specs)

/-- Witness for C6: sorting two rows by the Name column at position zero
compares the cells at offset one and yields the alphabetical order. -/
theorem claim_c6_witness :
    ([] : List String) = ([] : List String)
    ∧ List.Perm
        [[CellSpec.index, CellSpec.cell (some "alpha")],
         [CellSpec.index, CellSpec.cell (some "beta")]]
        [[CellSpec.index, CellSpec.cell (some "beta")],
         [CellSpec.index, CellSpec.cell (some "alpha")]]
    ∧ List.Sorted (rowTextLe 1)
        [[CellSpec.index, CellSpec.cell (some "alpha")],
         [CellSpec.index, CellSpec.cell (some "beta")]] := by
  exact (claim_c6_post_sort_column ["Name"] [metaB, metaA]
      (none : Option (List (String × (ObjectMeta → Option String)))) none false
      sampleKObj id 0 "Name").2 0 (by decide)
    ⟨[], ["####", "Name"], true,
      [[CellSpec.index, CellSpec.cell (some "alpha")],
       [CellSpec.index, CellSpec.cell (some "beta")]],
      [⟨"pod", "alpha", some "ns1"⟩, ⟨"pod", "beta", some "ns1"⟩]⟩
    ⟨[], ["####", "Name"], true,
      [[CellSpec.index, CellSpec.cell (some "beta")],
       [CellSpec.index, CellSpec.cell (some "alpha")]],
      [⟨"pod", "beta", some "ns1"⟩, ⟨"pod", "alpha", some "ns1"⟩]⟩
    (by decide) (by decide)

/-- C7: reversal is applied last to the final row sequence, orthogonally to
the sort mode: a reversed run prints exactly the reverse of the unreversed
run, an ascending post-sort followed by reversal yields a descending-sorted
permutation of the built rows, and reversal with no sort reverses the built
rows. -/
theorem claim_c7_reversal_last {α : Type} (cols : List String) (list_opt : Option (List α))
    (items : List α) (extractors : Option (List (String × (α → Option String))))
    (regex : Option (String → Bool)) (sort : Option (SortFunc α)) (get_kobj : α → KObj)
    (meta : α → ObjectMeta) (now : Int) (colname : String) :
    (∀ res, handle_list_result cols list_opt extractors regex sort true
        get_kobj meta now = some res →
      ∃ res0, handle_list_result cols list_opt extractors regex sort false
          get_kobj meta now = some res0
        ∧ res.rows = res0.rows.reverse ∧ res.lastObjs = res0.lastObjs.reverse)
    ∧ (∀ index res res0, List.findIdx? (fun c => c == colname) cols 0 = some index →
        handle_list_result cols (some items) extractors regex
          (some (SortFunc.post colname)) true get_kobj meta now = some res →
        handle_list_result cols (some items) extractors regex
          (none : Option (SortFunc α)) false get_kobj meta now = some res0 →
        res.rows.Perm res0.rows
        ∧ res.rows.Sorted (fun r1 r2 => rowTextLe (index + 1) r2 r1))
    ∧ (∀ res res0,
        handle_list_result cols (some items) extractors regex
          (none : Option (SortFunc α)) true get_kobj meta now = some res →
        handle_list_result cols (some items) extractors regex
          (none : Option (SortFunc α)) false get_kobj meta now = some res0 →
        res.rows = res0.rows.reverse) := by
  refine ⟨?_, ?_, ?_⟩
  · intro res h
    cases list_opt with
    | none =>
      cases h
      exact ⟨⟨[], [], false, [], []⟩, rfl, rfl, rfl⟩
    | some items2 =>
      obtain ⟨specs, ws, hb, hp, hres⟩ := handle_some_elim cols items2 extractors regex
        sort true get_kobj meta now res h
      subst hres
      have h0 := handle_some_intro cols items2 extractors regex sort false get_kobj
        meta now specs ws hb hp
      refine ⟨_, h0, ?_, ?_⟩
      · show (ws.2.reverse).map Prod.snd = (ws.2.map Prod.snd).reverse
        exact List.map_reverse _ _
      · show (ws.2.reverse).map Prod.fst = (ws.2.map Prod.fst).reverse
        exact List.map_reverse _ _
  · intro index res res0 hidx h h0
    obtain ⟨specs, ws, hb, hp, hres⟩ := handle_some_elim cols items extractors regex
      (some (SortFunc.post colname)) true get_kobj meta now res h
    obtain ⟨specs0, ws0, hb0, hp0, hres0⟩ := handle_some_elim cols items extractors regex
      (none : Option (SortFunc α)) false get_kobj meta now res0 h0
    have hb' : build_specs cols extractors true regex get_kobj meta now
        (preSortItems (none : Option (SortFunc α)) items) = some specs := hb
    have hspecs : specs = specs0 := by
      have h2 := hb'.symm.trans hb0
      injection h2
    subst hspecs
    have hlen := build_specs_mem_length cols extractors regex get_kobj meta now _ specs hb
    rw [postSort_present_eq cols specs colname index hidx hlen] at hp
    injection hp with hws
    subst hws
    rw [postSort_none_eq cols specs] at hp0
    injection hp0 with hws0
    subst hws0
    subst hres
    subst hres0
    constructor
    · show (((List.insertionSort (rowLe (index + 1)) specs).reverse).map Prod.snd).Perm
        (specs.map Prod.snd)
      exact ((List.reverse_perm _).trans
        (List.perm_insertionSort (rowLe (index + 1)) specs)).map Prod.snd
    · show List.Sorted (fun r1 r2 => rowTextLe (index + 1) r2 r1)
        ((List.insertionSort (rowLe (index + 1)) specs).reverse.map Prod.snd)
      rw [List.map_reverse]
      haveI : IsTotal (KObj × List CellSpec) (rowLe (index + 1)) :=
        ⟨rowLe_total (index + 1)⟩
      haveI : IsTrans (KObj × List CellSpec) (rowLe (index + 1)) :=
        ⟨rowLe_trans (index + 1)⟩
      exact List.pairwise_reverse.mpr
        (List.Pairwise.map Prod.snd (fun a b hab => hab)
          (List.sorted_insertionSort (rowLe (index + 1)) specs))
  · intro res res0 h h0
    obtain ⟨specs, ws, hb, hp, hres⟩ := handle_some_elim cols items extractors regex
      (none : Option (SortFunc α)) true get_kobj meta now res h
    obtain ⟨specs0, ws0, hb0, hp0, hres0⟩ := handle_some_elim cols items extractors regex
      (none : Option (SortFunc α)) false get_kobj meta now res0 h0
    have hspecs : specs = specs0 := by
      have h2 := hb.symm.trans hb0
      injection h2
    subst hspecs
    rw [postSort_none_eq cols specs] at hp hp0
    injection hp with hws
    subst hws
    injection hp0 with hws0
    subst hws0
    subst hres
    subst hres0
    show (specs.reverse).map Prod.snd = (specs.map Prod.snd).reverse
    exact List.map_reverse _ _

/-- Witness for C7 at a concrete two-resource list with no sort: the
reversed run is exactly the reverse of the unreversed run. -/
theorem claim_c7_witness :
    ∃ res0, handle_list_result ["Name"] (some [metaA, metaB])
        (none : Option (List (String × (ObjectMeta → Option String)))) none
        (none : Option (SortFunc ObjectMeta)) false sampleKObj id 0 = some res0
      ∧ ([[CellSpec.index, CellSpec.cell (some "beta")],
          [CellSpec.index, CellSpec.cell (some "alpha")]] : List (List CellSpec))
        = res0.rows.reverse
      ∧ ([⟨"pod", "beta", some "ns1"⟩, ⟨"pod", "alpha", some "ns1"⟩] : List KObj)
        = res0.lastObjs.reverse := by
  exact (claim_c7_reversal_last ["Name"] (some [metaA, metaB]) [metaA, metaB]
      (none : Option (List (String × (ObjectMeta → Option String)))) none
      (none : Option (SortFunc ObjectMeta)) sampleKObj id 0 "Name").1
    ⟨[], ["####", "Name"], true,
     [[CellSpec.index, CellSpec.cell (some "beta")],
      [CellSpec.index, CellSpec.cell (some "alpha")]],
     [⟨"pod", "beta", some "ns1"⟩, ⟨"pod", "alpha", some "ns1"⟩]⟩
    (by decide)
